import Mathlib

/-!
Verification of the chunking/caching pipeline of the YouTube chapters generator
(`src/app.py`).  The Python functions are shallowly embedded as executable Lean
definitions: machine floats that carry caption start times are modelled as
rationals (the program only ever truncates them to integers), the OpenAI call
and the transcript fetcher are modelled as explicit collaborator functions, and
fallible operations return `Option`/`Except`.
-/

namespace App

/-! ### Video-ID extractor (`extract_video_id`, app.py lines 25-27)

The regex is `(?:v=|/)([0-9A-Za-z_-]{11})`, applied with `re.search`
(leftmost match).  We embed the regex semantics directly: at each starting
position the engine tries the alternative `v=`, then `/`, and then consumes
exactly eleven characters of the class `[0-9A-Za-z_-]`. -/

/-- Membership in the regex character class `[0-9A-Za-z_-]`. -/
def isIdChar (c : Char) : Bool :=
  c.isDigit || c.isAlpha || c == '_' || c == '-'

/-- Consume exactly eleven id characters, the `([0-9A-Za-z_-]{11})` group. -/
def takeId11 (cs : List Char) : Option (List Char) :=
  if (cs.take 11).length = 11 && (cs.take 11).all isIdChar then some (cs.take 11) else none

/-- Try to match `(?:v=|/)([0-9A-Za-z_-]{11})` at the head of the character
list: the alternative `v=` is tried first, then `/` (the two can never both
apply at one position). -/
def matchIdAt : List Char → Option (List Char)
  | [] => none
  | c :: rest =>
    if c = 'v' then
      match rest with
      | c2 :: rest2 => if c2 = '=' then takeId11 rest2 else none
      | [] => none
    else if c = '/' then takeId11 rest
    else none

/-- Leftmost-match scan of `re.search`: try each start position left to right. -/
def searchId : List Char → Option (List Char)
  | [] => none
  | c :: rest =>
    match matchIdAt (c :: rest) with
    | some l => some l
    | none => searchId rest

/-- Embedding of `extract_video_id` (app.py lines 25-27); `None` becomes `none`. -/
def extract_video_id (url : String) : Option String :=
  (searchId url.data).map fun l => String.mk l

/-! ### Timestamp formatter (`format_timestamp`, app.py lines 29-33) -/

/-- Python `int()` on a float/rational: truncation toward zero. -/
def pyInt (q : Rat) : Int :=
  if 0 ≤ q then q.floor else q.ceil

/-- Python `f"{n:02}"`: pad with a leading zero up to width two.  The arguments
inside `format_timestamp` are the results of `divmod` by positive divisors, so
they always lie in `[0, 60)`; the condition `0 ≤ n` makes the definition agree
with Python on every integer. -/
def pad2 (n : Int) : String :=
  if 0 ≤ n ∧ n < 10 then "0" ++ toString n else toString n

/-- Body of `format_timestamp` after `total_seconds = int(seconds)`.  Python
`divmod` is floor division, hence `Int.fdiv`/`Int.fmod`; Python `if hours`
tests `hours ≠ 0`. -/
def formatTimestampInt (total_seconds : Int) : String :=
  let hours := Int.fdiv total_seconds 3600
  let remainder := Int.fmod total_seconds 3600
  let minutes := Int.fdiv remainder 60
  let secs := Int.fmod remainder 60
  if hours ≠ 0 then toString hours ++ ":" ++ pad2 minutes ++ ":" ++ pad2 secs
  else toString minutes ++ ":" ++ pad2 secs

/-- Embedding of `format_timestamp` (app.py lines 29-33). -/
def format_timestamp (seconds : Rat) : String :=
  formatTimestampInt (pyInt seconds)

/-! ### Cache store (`load_cache`/`save_cache`, app.py lines 35-46)

The cache is a JSON object mapping chunk-id strings to title strings.  A
Python `dict` is modelled as an association list without duplicate-key
shadowing: lookup returns the first binding, update replaces in place or
appends. -/

/-- The in-memory cache: chunk id to title, in insertion order. -/
abbrev Cache := List (String × String)

/-- Dictionary lookup, `cache[chunk_id]` / `chunk_id in cache`. -/
def cacheGet (cache : Cache) (k : String) : Option String :=
  match cache with
  | [] => none
  | (k', v) :: rest => if k' = k then some v else cacheGet rest k

/-- Dictionary update `cache[chunk_id] = title`: replace the existing binding
or append a new one. -/
def cacheSet (cache : Cache) (k v : String) : Cache :=
  match cache with
  | [] => [(k, v)]
  | (k', v') :: rest => if k' = k then (k, v) :: rest else (k', v') :: cacheSet rest k v

/-- Embedding of `load_cache` (app.py lines 35-42).  `fileContents = none`
models a missing cache file; `parseJson` models `json.load`, returning `none`
when parsing raises. -/
def load_cache (parseJson : String → Option Cache) (fileContents : Option String) : Cache :=
  match fileContents with
  | none => []
  | some s =>
    match parseJson s with
    | some cache => cache
    | none => []

/-! ### Title summarizer (`summarize_chunk`, app.py lines 69-87)

The OpenAI chat-completion call is the collaborator `llm : String → Option
String`: `some content` is a successful response body, `none` is any raised
exception.  The returned triple is (title, updated cache, whether the
language model was invoked); `save_cache` is called exactly when the cache is
updated, so durability is captured by the returned cache. -/

/-- Embedding of `summarize_chunk` (app.py lines 69-87). -/
def summarize_chunk (llm : String → Option String) (chunk_id text : String)
    (cache : Cache) : String × Cache × Bool :=
  match cacheGet cache chunk_id with
  | some t => (t, cache, false)
  | none =>
    let title :=
      match llm text with
      | some content => content.trim
      | none => "Chapter Title Error"
    (title, cacheSet cache chunk_id title, true)

/-! ### Caption entries and chunks (app.py lines 108-131) -/

/-- A caption entry returned by the transcript fetcher. -/
structure CaptionEntry where
  text : String
  start : Rat
  duration : Rat
deriving DecidableEq

/-- A chunk of consecutive caption text, as derived in the generation loop. -/
structure Chunk where
  id : String
  startTime : Rat
  text : String
deriving DecidableEq

/-- Split a character list at every separator character, keeping the (possibly
empty) fragments between consecutive separators. -/
def splitPred (p : Char → Bool) : List Char → List (List Char)
  | [] => [[]]
  | c :: rest =>
    let out := splitPred p rest
    if p c then [] :: out
    else
      match out with
      | [] => [[c]]
      | g :: gs => (c :: g) :: gs

/-- Python `entry.text.split()` with no argument: split on whitespace and
discard the empty fragments produced between consecutive separators. -/
def pySplitWs (s : String) : List String :=
  ((splitPred Char.isWhitespace s.data).filter (fun t => t ≠ [])).map String.mk

/-- Word count of one caption entry text. -/
def wordCount (s : String) : Nat := (pySplitWs s).length

/-- Total word count of a caption sequence. -/
def totalWords (entries : List CaptionEntry) : Nat :=
  (entries.map (fun e => wordCount e.text)).sum

/-- Chunk id derivation, the f-string at app.py lines 120 and 129:
the video id, an underscore, and the truncated buffer start time. -/
def chunk_id_of (video_id : String) (start : Rat) : String :=
  video_id ++ "_" ++ toString (pyInt start)

/-- The main generation loop of `generate_ai_chapters` (app.py lines 111-131),
instrumented to also return the chunks it derives and the list of chunk ids for
which the language model was invoked.  State: the text buffer, the optional
buffer start time, the running word count, and the cache. -/
def genLoop (llm : String → Option String) (video_id : String) (maxWords : Nat) :
    List CaptionEntry → List String → Option Rat → Nat → Cache →
    List (String × String) × List Chunk × Cache × List String
  | [], buffer, bstart, _, cache =>
    if buffer.isEmpty then ([], [], cache, [])
    else
      let bs : Rat := bstart.getD 0
      let chunk_text := (String.intercalate " " buffer).trim
      let cid := chunk_id_of video_id bs
      let r := summarize_chunk llm cid chunk_text cache
      ([(format_timestamp bs, r.1)], [⟨cid, bs, chunk_text⟩], r.2.1,
        if r.2.2 then [cid] else [])
  | entry :: rest, buffer, bstart, word_count, cache =>
    let bs := bstart.getD entry.start
    let buffer' := buffer ++ [entry.text]
    let wc' := word_count + wordCount entry.text
    if maxWords ≤ wc' then
      let chunk_text := (String.intercalate " " buffer').trim
      let cid := chunk_id_of video_id bs
      let r := summarize_chunk llm cid chunk_text cache
      let out := genLoop llm video_id maxWords rest [] none 0 r.2.1
      ((format_timestamp bs, r.1) :: out.1, ⟨cid, bs, chunk_text⟩ :: out.2.1, out.2.2.1,
        (if r.2.2 then [cid] else []) ++ out.2.2.2)
    else
      genLoop llm video_id maxWords rest buffer' (some bs) wc' cache

/-- The chunk-structure projection of the generation loop: the same recursion
restricted to the segmentation state, which the summarization never touches
(`genLoop_chunks` below proves the agreement). -/
def segmentLoop (video_id : String) (maxWords : Nat) :
    List CaptionEntry → List String → Option Rat → Nat → List Chunk
  | [], buffer, bstart, _ =>
    if buffer.isEmpty then []
    else
      let bs : Rat := bstart.getD 0
      [⟨chunk_id_of video_id bs, bs, (String.intercalate " " buffer).trim⟩]
  | entry :: rest, buffer, bstart, word_count =>
    let bs := bstart.getD entry.start
    let buffer' := buffer ++ [entry.text]
    let wc' := word_count + wordCount entry.text
    if maxWords ≤ wc' then
      ⟨chunk_id_of video_id bs, bs, (String.intercalate " " buffer').trim⟩ ::
        segmentLoop video_id maxWords rest [] none 0
    else
      segmentLoop video_id maxWords rest buffer' (some bs) wc'

/-- The segmenter: the generation loop started from the empty state. -/
def segment (video_id : String) (maxWords : Nat) (entries : List CaptionEntry) : List Chunk :=
  segmentLoop video_id maxWords entries [] none 0

/-! ### Pipeline wrapper (`generate_ai_chapters`, app.py lines 89-133) -/

/-- Outcome of listing and fetching the transcript (app.py lines 94-108),
collapsed into one collaborator: either the fetched caption sequence or a
surfaced error message. -/
inductive FetchResult where
  | ok (transcript : List CaptionEntry)
  | error (message : String)
deriving DecidableEq

/-- Embedding of `generate_ai_chapters` (app.py lines 89-133).  The `cache`
argument is the result of `load_cache()` at line 109; the function returns the
result value together with the final cache state. -/
def generate_ai_chapters (llm : String → Option String) (fetch : String → FetchResult)
    (video_url : String) (maxWords : Nat) (cache : Cache) :
    Except String (List (String × String)) × Cache :=
  match extract_video_id video_url with
  | none => (Except.error "Invalid YouTube URL.", cache)
  | some video_id =>
    match fetch video_id with
    | FetchResult.error m => (Except.error m, cache)
    | FetchResult.ok transcript =>
      let out := genLoop llm video_id maxWords transcript [] none 0 cache
      (Except.ok out.1, out.2.2.1)

/-- The preferred language codes at app.py line 100. -/
def preferred_languages : List String := ["en", "en-US", "en-GB", "hi", "hi-IN"]

/-- Language selection, app.py lines 100-106: `find_transcript(preferred)`
returns the first preferred code present among the available codes and raises
`NoTranscriptFound` otherwise, in which case the code falls back to
`available_codes[0]`.  The unguarded `[0]` on an empty availability list
raises `IndexError`; that branch is modelled as `none`. -/
def choose_language (available_codes : List String) : Option String :=
  match preferred_languages.find? (fun c => available_codes.contains c) with
  | some c => some c
  | none => available_codes.head?

/-! ### View Cached Videos grouping (app.py lines 186-190) -/

/-- Python `str.split` with a one-character separator. -/
def splitChar (sep : Char) : List Char → List (List Char)
  | [] => [[]]
  | c :: rest =>
    let out := splitChar sep rest
    if c = sep then [] :: out
    else
      match out with
      | [] => [[c]]
      | g :: gs => (c :: g) :: gs

/-- The destructuring `video_id, ts_seconds = chunk_id.split("_")` at app.py
line 188: Python raises `ValueError` unless the split has exactly two parts;
the raising branch is modelled as `none`. -/
def parse_chunk_id (cid : String) : Option (String × String) :=
  match splitChar '_' cid.data with
  | [v, t] => some (String.mk v, String.mk t)
  | _ => none

/-- Decimal value of a digit character. -/
def digitVal (c : Char) : Nat := c.toNat - 48

/-- Value of a decimal digit string, most significant digit first. -/
def parseDigits (cs : List Char) : Nat :=
  cs.foldl (fun a c => 10 * a + digitVal c) 0

/-- Python `int()` applied to a string, restricted to optionally negated digit
strings (every other input raises `ValueError`, modelled as `none`). -/
def py_int_of_string (s : String) : Option Int :=
  match s.data with
  | [] => none
  | c :: rest =>
    if c = '-' then
      if rest ≠ [] && rest.all Char.isDigit then some (-(parseDigits rest : Int)) else none
    else if (c :: rest).all Char.isDigit then some ((parseDigits (c :: rest) : Nat) : Int)
    else none

/-- One iteration of the grouping loop at app.py lines 187-190 for a single
cache entry: split the chunk id, parse the embedded seconds, and re-format the
timestamp.  `none` models the raising branches. -/
def view_entry (cid : String) : Option (String × String) :=
  match parse_chunk_id cid with
  | none => none
  | some (vid, ts) =>
    match py_int_of_string ts with
    | none => none
    | some n => some (vid, formatTimestampInt n)

/-! ### Cache dictionary lemmas -/

theorem cacheGet_set_self (cache : Cache) (k v : String) :
    cacheGet (cacheSet cache k v) k = some v := by
  induction cache with
  | nil => simp [cacheGet, cacheSet]
  | cons kv rest ih =>
    obtain ⟨k', v'⟩ := kv
    by_cases h : k' = k <;> simp [cacheGet, cacheSet, h, ih]

theorem cacheGet_set_of_ne (cache : Cache) (k v k' : String) (h : k ≠ k') :
    cacheGet (cacheSet cache k v) k' = cacheGet cache k' := by
  induction cache with
  | nil => simp [cacheGet, cacheSet, h]
  | cons kv rest ih =>
    obtain ⟨a, b⟩ := kv
    by_cases ha : a = k
    · subst ha
      simp [cacheGet, cacheSet, h]
    · simp [cacheGet, cacheSet, ha, ih]

theorem mem_values_of_cacheGet (cache : Cache) (k v : String)
    (h : cacheGet cache k = some v) : v ∈ cache.map Prod.snd := by
  induction cache with
  | nil => simp [cacheGet] at h
  | cons kv rest ih =>
    obtain ⟨a, b⟩ := kv
    by_cases ha : a = k
    · simp [cacheGet, ha] at h
      simp [h]
    · simp [cacheGet, ha] at h
      simp [ih h]

theorem mem_values_cacheSet (cache : Cache) (k v t : String)
    (h : t ∈ (cacheSet cache k v).map Prod.snd) : t = v ∨ t ∈ cache.map Prod.snd := by
  induction cache with
  | nil => simpa [cacheSet] using h
  | cons kv rest ih =>
    obtain ⟨a, b⟩ := kv
    by_cases ha : a = k
    · simp [cacheSet, ha] at h
      rcases h with h | h
      · exact Or.inl h
      · exact Or.inr (by simp [h])
    · simp [cacheSet, ha] at h
      rcases h with h | h
      · exact Or.inr (by simp [h])
      · obtain ⟨x, hx⟩ := h
        rcases ih (List.mem_map.mpr ⟨(x, t), hx, rfl⟩) with h' | h'
        · exact Or.inl h'
        · exact Or.inr (by simp [h'])

/-! ### Basic facts about `summarize_chunk` -/

theorem summarize_chunk_hit (llm : String → Option String) (chunk_id text : String)
    (cache : Cache) (t : String) (h : cacheGet cache chunk_id = some t) :
    summarize_chunk llm chunk_id text cache = (t, cache, false) := by
  simp [summarize_chunk, h]

theorem summarize_chunk_miss (llm : String → Option String) (chunk_id text : String)
    (cache : Cache) (h : cacheGet cache chunk_id = none) :
    summarize_chunk llm chunk_id text cache =
      (match llm text with
        | some content => content.trim
        | none => "Chapter Title Error",
       cacheSet cache chunk_id
         (match llm text with
          | some content => content.trim
          | none => "Chapter Title Error"), true) := by
  simp [summarize_chunk, h]

/-! ### Decimal rendering: facts about `Nat.repr` and `toString` on integers

`chunk_id_of` embeds the truncated start time through `toString`, and the
cached-videos page parses it back, so the claims about chunk ids need the
decimal rendering to be injective, digit-only, and parseable.  Core only
defines `Nat.toDigitsCore` by fuel; we relate it to a structurally clear
digit-list function and prove the needed facts about that. -/

/-- Big-endian decimal digit list of a natural number (fuel-free version of
the core `Nat.toDigitsCore`). -/
def toDigitsSpec (n : Nat) : List Char :=
  if n < 10 then [Nat.digitChar n]
  else toDigitsSpec (n / 10) ++ [Nat.digitChar (n % 10)]
termination_by n
decreasing_by omega

theorem toDigitsCore_eq (fuel n : Nat) (acc : List Char) (h : n < fuel) :
    Nat.toDigitsCore 10 fuel n acc = toDigitsSpec n ++ acc := by
  induction fuel generalizing n acc with
  | zero => omega
  | succ f ih =>
    rw [Nat.toDigitsCore]
    by_cases h10 : n / 10 = 0
    · have hlt : n < 10 := by omega
      rw [toDigitsSpec]
      simp [h10, hlt, Nat.mod_eq_of_lt hlt]
    · have hge : ¬ n < 10 := by omega
      have hrec : n / 10 < f := by
        have := Nat.div_lt_self (by omega : 0 < n) (by norm_num : 1 < 10)
        omega
      rw [toDigitsSpec]
      simp only [h10, if_false, hge, ih (n / 10) _ hrec, List.append_assoc, List.cons_append,
        List.nil_append]

theorem repr_data (n : Nat) : (Nat.repr n).data = toDigitsSpec n := by
  show (Nat.toDigits 10 n).asString.data = toDigitsSpec n
  rw [Nat.toDigits, toDigitsCore_eq (n + 1) n [] (Nat.lt_succ_self n)]
  simp [List.asString]

theorem digitChar_isDigit : ∀ k, k < 10 → (Nat.digitChar k).isDigit = true := by decide

theorem digitVal_digitChar : ∀ k, k < 10 → digitVal (Nat.digitChar k) = k := by decide

theorem toDigitsSpec_ne_nil (n : Nat) : toDigitsSpec n ≠ [] := by
  rw [toDigitsSpec]
  by_cases h : n < 10 <;> simp [h]

theorem toDigitsSpec_digits (n : Nat) : ∀ c ∈ toDigitsSpec n, c.isDigit = true := by
  induction n using Nat.strong_induction_on with
  | _ n ih =>
    rw [toDigitsSpec]
    by_cases h : n < 10
    · simp [h, digitChar_isDigit n h]
    · have hrec : n / 10 < n := Nat.div_lt_self (by omega) (by norm_num)
      simp only [h, if_false]
      intro c hc
      rcases List.mem_append.mp hc with hc | hc
      · exact ih (n / 10) hrec c hc
      · simp at hc
        subst hc
        exact digitChar_isDigit _ (Nat.mod_lt n (by norm_num))

theorem parseDigits_toDigitsSpec (n : Nat) : parseDigits (toDigitsSpec n) = n := by
  induction n using Nat.strong_induction_on with
  | _ n ih =>
    rw [toDigitsSpec]
    by_cases h : n < 10
    · simp [h, parseDigits, digitVal_digitChar n h]
    · have hrec : n / 10 < n := Nat.div_lt_self (by omega) (by norm_num)
      simp only [h, if_false, parseDigits, List.foldl_append, List.foldl_cons, List.foldl_nil]
      have := ih (n / 10) hrec
      simp only [parseDigits] at this
      rw [this, digitVal_digitChar _ (Nat.mod_lt n (by norm_num))]
      omega

theorem natRepr_inj {m n : Nat} (h : Nat.repr m = Nat.repr n) : m = n := by
  have hd : toDigitsSpec m = toDigitsSpec n := by
    rw [← repr_data, ← repr_data, h]
  calc m = parseDigits (toDigitsSpec m) := (parseDigits_toDigitsSpec m).symm
    _ = parseDigits (toDigitsSpec n) := by rw [hd]
    _ = n := parseDigits_toDigitsSpec n

theorem toString_int_ofNat (m : Nat) : toString (Int.ofNat m) = Nat.repr m := rfl

theorem toString_int_negSucc (m : Nat) : toString (Int.negSucc m) = "-" ++ Nat.repr (m + 1) := rfl

theorem repr_head_isDigit (n : Nat) :
    ∃ c cs, (Nat.repr n).data = c :: cs ∧ c.isDigit = true := by
  rw [repr_data]
  rcases hne : toDigitsSpec n with _ | ⟨c, cs⟩
  · exact absurd hne (toDigitsSpec_ne_nil n)
  · exact ⟨c, cs, rfl, toDigitsSpec_digits n c (by rw [hne]; simp)⟩

theorem toString_int_inj {i j : Int} (h : toString i = toString j) : i = j := by
  have hdata : (toString i).data = (toString j).data := by rw [h]
  cases i with
  | ofNat m =>
    cases j with
    | ofNat n =>
      exact congrArg Int.ofNat (natRepr_inj h)
    | negSucc n =>
      obtain ⟨c, cs, hc, hdig⟩ := repr_head_isDigit m
      rw [toString_int_ofNat, toString_int_negSucc] at hdata
      rw [hc] at hdata
      simp at hdata
      rw [hdata.1] at hdig
      simp at hdig
  | negSucc m =>
    cases j with
    | ofNat n =>
      obtain ⟨c, cs, hc, hdig⟩ := repr_head_isDigit n
      rw [toString_int_ofNat, toString_int_negSucc] at hdata
      rw [hc] at hdata
      simp at hdata
      rw [← hdata.1] at hdig
      simp at hdig
    | negSucc n =>
      rw [toString_int_negSucc, toString_int_negSucc] at hdata
      simp at hdata
      have hmn : m + 1 = n + 1 := natRepr_inj (String.ext hdata)
      have : m = n := by omega
      rw [this]

/-! ### Structure of the generation loop -/

theorem genLoop_chunks (llm : String → Option String) (v : String) (w : Nat) :
    ∀ (entries : List CaptionEntry) (buffer : List String) (bstart : Option Rat) (wc : Nat)
      (cache : Cache),
    (genLoop llm v w entries buffer bstart wc cache).2.1 = segmentLoop v w entries buffer bstart wc := by
  intro entries
  induction entries with
  | nil =>
    intro buffer bstart wc cache
    by_cases h : buffer.isEmpty <;> simp [genLoop, segmentLoop, h]
  | cons e rest ih =>
    intro buffer bstart wc cache
    by_cases h : w ≤ wc + wordCount e.text <;> simp [genLoop, segmentLoop, h, ih]

theorem genLoop_chapters_length (llm : String → Option String) (v : String) (w : Nat) :
    ∀ (entries : List CaptionEntry) (buffer : List String) (bstart : Option Rat) (wc : Nat)
      (cache : Cache),
    (genLoop llm v w entries buffer bstart wc cache).1.length =
      (segmentLoop v w entries buffer bstart wc).length := by
  intro entries
  induction entries with
  | nil =>
    intro buffer bstart wc cache
    by_cases h : buffer.isEmpty <;> simp [genLoop, segmentLoop, h]
  | cons e rest ih =>
    intro buffer bstart wc cache
    by_cases h : w ≤ wc + wordCount e.text <;> simp [genLoop, segmentLoop, h, ih]

/-- Invariant of the generation loop underlying the memoization contract: the
list of chunk ids for which the language model was invoked has no duplicates,
every invoked id was absent from the starting cache, existing cache bindings
survive the run unchanged, and every invoked id is bound in the final cache. -/
theorem genLoop_inv (llm : String → Option String) (v : String) (w : Nat) :
    ∀ (entries : List CaptionEntry) (buffer : List String) (bstart : Option Rat) (wc : Nat)
      (cache : Cache),
    (genLoop llm v w entries buffer bstart wc cache).2.2.2.Nodup ∧
    (∀ cid ∈ (genLoop llm v w entries buffer bstart wc cache).2.2.2,
      cacheGet cache cid = none) ∧
    (∀ k t, cacheGet cache k = some t →
      cacheGet (genLoop llm v w entries buffer bstart wc cache).2.2.1 k = some t) ∧
    (∀ cid ∈ (genLoop llm v w entries buffer bstart wc cache).2.2.2,
      (cacheGet (genLoop llm v w entries buffer bstart wc cache).2.2.1 cid).isSome = true) := by
  intro entries
  induction entries with
  | nil =>
    intro buffer bstart wc cache
    by_cases h : buffer.isEmpty
    · simp [genLoop, h]
    · rcases hcg : cacheGet cache (chunk_id_of v (bstart.getD 0)) with _ | t
      · -- cache miss on the trailing chunk
        simp only [genLoop, h, if_false, Bool.false_eq_true,
          summarize_chunk_miss llm _ _ cache hcg]
        refine ⟨by simp, ?_, ?_, ?_⟩
        · intro cid hcid
          simp at hcid
          subst hcid
          exact hcg
        · intro k t hk
          have hne : chunk_id_of v (bstart.getD 0) ≠ k := by
            intro hEq
            rw [hEq] at hcg
            rw [hcg] at hk
            cases hk
          simp [cacheGet_set_of_ne _ _ _ _ hne, hk]
        · intro cid hcid
          simp at hcid
          subst hcid
          simp [cacheGet_set_self]
      · -- cache hit on the trailing chunk: nothing is invoked, nothing changes
        simp [genLoop, h, summarize_chunk_hit llm _ _ cache t hcg]
  | cons e rest ih =>
    intro buffer bstart wc cache
    by_cases hclose : w ≤ wc + wordCount e.text
    · rcases hcg : cacheGet cache (chunk_id_of v (bstart.getD e.start)) with _ | t
      · -- miss: the model is invoked for this chunk, then the loop restarts
        have hset := cacheGet_set_self cache (chunk_id_of v (bstart.getD e.start))
          (match llm ((String.intercalate " " (buffer ++ [e.text])).trim) with
            | some content => content.trim
            | none => "Chapter Title Error")
        obtain ⟨ihN, ihF, ihM, ihS⟩ := ih [] none 0
          (cacheSet cache (chunk_id_of v (bstart.getD e.start))
            (match llm ((String.intercalate " " (buffer ++ [e.text])).trim) with
              | some content => content.trim
              | none => "Chapter Title Error"))
        simp only [genLoop, hclose, if_true, summarize_chunk_miss llm _ _ cache hcg]
        refine ⟨?_, ?_, ?_, ?_⟩
        · simp only [List.singleton_append, List.nodup_cons]
          refine ⟨fun hmem => ?_, ihN⟩
          have := ihF _ hmem
          rw [hset] at this
          cases this
        · intro cid hcid
          simp only [List.singleton_append, List.mem_cons] at hcid
          rcases hcid with hcid | hcid
          · subst hcid
            exact hcg
          · have := ihF _ hcid
            by_cases hEq : chunk_id_of v (bstart.getD e.start) = cid
            · rw [← hEq]
              exact hcg
            · rw [cacheGet_set_of_ne _ _ _ _ hEq] at this
              exact this
        · intro k t hk
          have hne : chunk_id_of v (bstart.getD e.start) ≠ k := by
            intro hEq
            rw [hEq] at hcg
            rw [hcg] at hk
            cases hk
          have hstep : cacheGet (cacheSet cache (chunk_id_of v (bstart.getD e.start))
              (match llm ((String.intercalate " " (buffer ++ [e.text])).trim) with
                | some content => content.trim
                | none => "Chapter Title Error")) k = some t := by
            rw [cacheGet_set_of_ne _ _ _ _ hne]
            exact hk
          exact ihM k t hstep
        · intro cid hcid
          simp only [List.singleton_append, List.mem_cons] at hcid
          rcases hcid with hcid | hcid
          · subst hcid
            have := ihM _ _ hset
            simp [this]
          · exact ihS _ hcid
      · -- hit: the stored title is reused, the cache is untouched here
        obtain ⟨ihN, ihF, ihM, ihS⟩ := ih [] none 0 cache
        simp only [genLoop, hclose, if_true, summarize_chunk_hit llm _ _ cache t hcg]
        simpa using ⟨ihN, ihF, ihM, ihS⟩
    · simpa [genLoop, hclose] using ih (buffer ++ [e.text]) (some (bstart.getD e.start))
        (wc + wordCount e.text) cache

/-! ### Digit characters versus separators -/

theorem isDigit_ne_under {c : Char} (h : c.isDigit = true) : c ≠ '_' := by
  intro hEq
  subst hEq
  exact absurd h (by decide)

theorem isDigit_ne_dash {c : Char} (h : c.isDigit = true) : c ≠ '-' := by
  intro hEq
  subst hEq
  exact absurd h (by decide)

theorem toDigitsSpec_no_under (n : Nat) : '_' ∉ toDigitsSpec n := by
  intro hmem
  exact isDigit_ne_under (toDigitsSpec_digits n _ hmem) rfl

/-! ### Python `str.split` on one character -/

theorem splitChar_of_not_mem (sep : Char) : ∀ l : List Char, sep ∉ l → splitChar sep l = [l] := by
  intro l
  induction l with
  | nil => intro; rfl
  | cons c rest ih =>
    intro h
    have hc : ¬ c = sep := fun hEq => h (by simp [hEq])
    have hrest : sep ∉ rest := fun hmem => h (by simp [hmem])
    simp [splitChar, hc, ih hrest]

theorem splitChar_append_sep (sep : Char) :
    ∀ a b : List Char, sep ∉ a → splitChar sep (a ++ sep :: b) = a :: splitChar sep b := by
  intro a
  induction a with
  | nil => intro b _; simp [splitChar]
  | cons c a' ih =>
    intro b h
    have hc : ¬ c = sep := fun hEq => h (by simp [hEq])
    have ha' : sep ∉ a' := fun hmem => h (by simp [hmem])
    simp only [List.cons_append, splitChar, hc, if_false, List.append_eq]
    rw [ih b ha']

/-! ### Round trip from chunk-id derivation to the cached-videos parsing -/

theorem chunk_id_data (v : String) (s : Rat) :
    (chunk_id_of v s).data = v.data ++ '_' :: (toString (pyInt s)).data := by
  show ((v ++ "_") ++ toString (pyInt s)).data = _
  simp [String.data_append]

/-- For a nonnegative start time, the truncated start is the floor, as a
natural number cast. -/
theorem pyInt_nonneg (s : Rat) (hs : 0 ≤ s) : pyInt s = Int.ofNat (Rat.floor s).toNat := by
  have hfl : 0 ≤ Rat.floor s := Rat.le_floor.mpr (by exact_mod_cast hs)
  rw [pyInt, if_pos hs]
  exact (Int.toNat_of_nonneg hfl).symm

/-- Parsing one cache entry of the View Cached Videos page recovers the video
id and re-formats exactly the timestamp the generation step formatted, for
video ids free of underscores and nonnegative start times. -/
theorem view_entry_round_trip (v : String) (s : Rat)
    (hv : '_' ∉ v.data) (hs : 0 ≤ s) :
    view_entry (chunk_id_of v s) = some (v, format_timestamp s) := by
  obtain ⟨m, hm⟩ : ∃ m : Nat, pyInt s = Int.ofNat m := ⟨_, pyInt_nonneg s hs⟩
  have hts : (toString (pyInt s)).data = toDigitsSpec m := by
    rw [hm, toString_int_ofNat, repr_data]
  have hsplit : splitChar '_' (chunk_id_of v s).data = [v.data, toDigitsSpec m] := by
    rw [chunk_id_data, hts, splitChar_append_sep '_' _ _ hv,
      splitChar_of_not_mem '_' _ (toDigitsSpec_no_under m)]
  have hparse : parse_chunk_id (chunk_id_of v s) = some (v, String.mk (toDigitsSpec m)) := by
    rw [parse_chunk_id, hsplit]
  obtain ⟨c, cs, hcons, hdig⟩ : ∃ c cs, toDigitsSpec m = c :: cs ∧ c.isDigit = true := by
    rcases hne : toDigitsSpec m with _ | ⟨c, cs⟩
    · exact absurd hne (toDigitsSpec_ne_nil m)
    · exact ⟨c, cs, rfl, toDigitsSpec_digits m c (by rw [hne]; simp)⟩
  have halld : (c :: cs).all Char.isDigit = true := by
    rw [List.all_eq_true]
    intro x hx
    exact toDigitsSpec_digits m x (by rw [hcons]; exact hx)
  have hint : py_int_of_string (String.mk (toDigitsSpec m)) = some (Int.ofNat m) := by
    rw [py_int_of_string]
    simp only [hcons, if_neg (isDigit_ne_dash hdig), halld, if_true]
    have : parseDigits (c :: cs) = m := by rw [← hcons, parseDigits_toDigitsSpec]
    simp [this]
  simp [view_entry, hparse, hint, format_timestamp, hm]

/-! ### Chunk start times are picked from the caption entries in order -/

/-- The buffered start time viewed as a (zero- or one-element) start list. -/
def optStart : Option Rat → List Rat
  | none => []
  | some s => [s]

theorem segmentLoop_starts_sublist (v : String) (w : Nat) :
    ∀ (entries : List CaptionEntry) (buffer : List String) (bstart : Option Rat) (wc : Nat),
    (bstart = none → buffer = []) →
    List.Sublist ((segmentLoop v w entries buffer bstart wc).map Chunk.startTime)
      (optStart bstart ++ entries.map (fun e => e.start)) := by
  intro entries
  induction entries with
  | nil =>
    intro buffer bstart wc hinv
    by_cases h : buffer.isEmpty
    · simp [segmentLoop, h]
    · cases bstart with
      | none =>
        rw [hinv rfl] at h
        simp at h
      | some s => simp [segmentLoop, h, optStart]
  | cons e rest ih =>
    intro buffer bstart wc hinv
    by_cases hclose : w ≤ wc + wordCount e.text
    · have hrec := ih [] none 0 (fun _ => rfl)
      simp only [optStart, List.nil_append] at hrec
      cases bstart with
      | none =>
        simp only [segmentLoop, hclose, if_true, List.map_cons, Option.getD_none, optStart,
          List.nil_append, List.map_cons]
        exact List.Sublist.cons₂ _ hrec
      | some s =>
        simp only [segmentLoop, hclose, if_true, List.map_cons, Option.getD_some, optStart,
          List.singleton_append, List.map_cons]
        exact List.Sublist.cons₂ _ (hrec.trans (List.sublist_cons_self _ _))
    · have hrec := ih (buffer ++ [e.text]) (some (bstart.getD e.start)) (wc + wordCount e.text)
        (fun h => by cases h)
      simp only [optStart, List.singleton_append] at hrec
      cases bstart with
      | none =>
        simpa [segmentLoop, hclose, optStart] using hrec
      | some s =>
        simp only [segmentLoop, hclose, if_false, Option.getD_some, optStart,
          List.singleton_append, List.map_cons]
        exact hrec.trans (List.Sublist.cons₂ _ (List.sublist_cons_self _ _))

theorem segmentLoop_id_form (v : String) (w : Nat) :
    ∀ (entries : List CaptionEntry) (buffer : List String) (bstart : Option Rat) (wc : Nat),
    ∀ ch ∈ segmentLoop v w entries buffer bstart wc, ch.id = chunk_id_of v ch.startTime := by
  intro entries
  induction entries with
  | nil =>
    intro buffer bstart wc ch hch
    by_cases h : buffer.isEmpty
    · simp [segmentLoop, h] at hch
    · simp [segmentLoop, h] at hch
      rw [hch]
  | cons e rest ih =>
    intro buffer bstart wc ch hch
    by_cases hclose : w ≤ wc + wordCount e.text
    · simp only [segmentLoop, hclose, if_true, List.mem_cons] at hch
      rcases hch with hch | hch
      · rw [hch]
      · exact ih [] none 0 ch hch
    · simp only [segmentLoop, hclose, if_false] at hch
      exact ih _ _ _ ch hch

/-! ### Exact-threshold segmentation (claim C3 machinery) -/

theorem totalWords_cons (e : CaptionEntry) (l : List CaptionEntry) :
    totalWords (e :: l) = wordCount e.text + totalWords l := by
  simp [totalWords]

theorem getLast_le_totalWords :
    ∀ (l : List CaptionEntry) (h : l ≠ []), wordCount ((l.getLast h).text) ≤ totalWords l := by
  intro l
  induction l with
  | nil => intro h; exact absurd rfl h
  | cons e rest ih =>
    intro h
    cases rest with
    | nil => simp [totalWords]
    | cons e1 rest' =>
      rw [List.getLast_cons (by simp), totalWords_cons]
      exact Nat.le_add_left _ _ |>.trans' (ih (by simp))

/-- When the remaining caption entries bring the running word count exactly to
the threshold and the very last entry still carries at least one word, the
loop emits exactly one chunk holding the whole buffered text. -/
theorem segmentLoop_exact (v : String) (w : Nat) :
    ∀ (rest : List CaptionEntry) (e : CaptionEntry) (buffer : List String) (bstart : Option Rat)
      (wc : Nat),
    1 ≤ wordCount (((e :: rest).getLast (List.cons_ne_nil e rest)).text) →
    wc + totalWords (e :: rest) = w →
    segmentLoop v w (e :: rest) buffer bstart wc =
      [⟨chunk_id_of v (bstart.getD e.start), bstart.getD e.start,
        (String.intercalate " " (buffer ++ (e :: rest).map (fun x => x.text))).trim⟩] := by
  intro rest
  induction rest with
  | nil =>
    intro e buffer bstart wc hlast htotal
    simp only [totalWords_cons, totalWords, List.map_nil, List.sum_nil, Nat.add_zero] at htotal
    have hclose : w ≤ wc + wordCount e.text := Nat.le_of_eq htotal.symm
    simp [segmentLoop, hclose]
  | cons e1 rest' ih =>
    intro e buffer bstart wc hlast htotal
    rw [List.getLast_cons (by simp)] at hlast
    have hpos : 1 ≤ totalWords (e1 :: rest') :=
      hlast.trans (getLast_le_totalWords (e1 :: rest') (by simp))
    rw [totalWords_cons] at htotal
    have hopen : ¬ w ≤ wc + wordCount e.text := by omega
    have hrec := ih e1 (buffer ++ [e.text]) (some (bstart.getD e.start))
      (wc + wordCount e.text) hlast (by omega)
    have hstep : segmentLoop v w (e :: e1 :: rest') buffer bstart wc =
        segmentLoop v w (e1 :: rest') (buffer ++ [e.text]) (some (bstart.getD e.start))
          (wc + wordCount e.text) := by
      generalize e1 :: rest' = tail
      simp [segmentLoop, hopen]
    rw [hstep, hrec]
    simp [List.append_assoc]

/-! ### Timestamp formatting refinement (claim C5 machinery) -/

/-- Two-digit zero padding of a natural number below 100, as the spec words
it ("minutes and seconds always two digits"). -/
def two_digit (k : Nat) : String :=
  if k < 10 then "0" ++ toString k else toString k

/-- Timestamp rendering as the specification words it: hours, minutes and
seconds of the truncated value, rendered `H:MM:SS` when hours are positive and
`M:SS` otherwise. -/
def spec_format (n : Nat) : String :=
  let hours := n / 3600
  let minutes := n % 3600 / 60
  let secs := n % 60
  if 0 < hours then toString hours ++ ":" ++ two_digit minutes ++ ":" ++ two_digit secs
  else toString minutes ++ ":" ++ two_digit secs

theorem pad2_cast (k : Nat) : pad2 ((k : Nat) : Int) = two_digit k := by
  by_cases h : k < 10
  · rw [pad2, if_pos ⟨by exact_mod_cast Nat.zero_le k, by exact_mod_cast h⟩, two_digit, if_pos h]
    rfl
  · rw [pad2, if_neg, two_digit, if_neg h]
    · rfl
    · intro hcon
      exact h (by exact_mod_cast hcon.2)

theorem toString_natCast (k : Nat) : toString ((k : Nat) : Int) = toString k := rfl

theorem formatTimestampInt_cast (m : Nat) : formatTimestampInt ((m : Nat) : Int) = spec_format m := by
  have h3600 : (3600 : Int) = ((3600 : Nat) : Int) := rfl
  have h60 : (60 : Int) = ((60 : Nat) : Int) := rfl
  have hmod : m % 3600 % 60 = m % 60 := Nat.mod_mod_of_dvd m (by norm_num)
  simp only [formatTimestampInt, spec_format, h3600, h60, ← Int.ofNat_fdiv, ← Int.ofNat_fmod,
    pad2_cast, hmod, toString_natCast, ne_eq, Int.natCast_eq_zero, Nat.pos_iff_ne_zero]

/-! ### Soundness and completeness of the id extractor (claim C9 machinery) -/

/-- The candidate string occurs in the url as eleven id-class characters
immediately following `v=` or a `/`. -/
def Occurs (url cand : String) : Prop :=
  cand.data.length = 11 ∧ cand.data.all isIdChar = true ∧
  ∃ a b, url.data = a ++ 'v' :: '=' :: (cand.data ++ b) ∨ url.data = a ++ '/' :: (cand.data ++ b)

/-- The url contains some eleven-character id adjacent to `v=` or `/`. -/
def HasId (url : String) : Prop := ∃ cand, Occurs url cand

theorem takeId11_sound {cs l : List Char} (h : takeId11 cs = some l) :
    (∃ b, cs = l ++ b) ∧ l.length = 11 ∧ l.all isIdChar = true := by
  rw [takeId11] at h
  by_cases hc : (cs.take 11).length = 11 && (cs.take 11).all isIdChar
  · rw [if_pos hc] at h
    obtain rfl : cs.take 11 = l := by injection h
    simp only [Bool.and_eq_true, decide_eq_true_eq] at hc
    exact ⟨⟨cs.drop 11, (List.take_append_drop 11 cs).symm⟩, hc.1, hc.2⟩
  · rw [if_neg hc] at h
    cases h

theorem takeId11_on_id_front {l : List Char} (b : List Char) (h11 : l.length = 11)
    (hall : l.all isIdChar = true) : takeId11 (l ++ b) = some l := by
  have ht : (l ++ b).take 11 = l := List.take_left' h11
  rw [takeId11, ht]
  simp [h11, hall]

theorem matchIdAt_sound {cs l : List Char} (h : matchIdAt cs = some l) :
    (∃ b, cs = 'v' :: '=' :: (l ++ b) ∨ cs = '/' :: (l ++ b)) ∧
      l.length = 11 ∧ l.all isIdChar = true := by
  match cs with
  | [] => cases h
  | c :: rest =>
    simp only [matchIdAt.eq_def] at h
    by_cases hv : c = 'v'
    · rw [if_pos hv] at h
      match rest with
      | [] => cases h
      | c2 :: rest2 =>
        have h2 : (if c2 = '=' then takeId11 rest2 else none) = some l := h
        by_cases he : c2 = '='
        · rw [if_pos he] at h2
          obtain ⟨⟨b, hb⟩, h11, hall⟩ := takeId11_sound h2
          exact ⟨⟨b, Or.inl (by rw [hv, he, hb])⟩, h11, hall⟩
        · rw [if_neg he] at h2
          cases h2
    · rw [if_neg hv] at h
      by_cases hs : c = '/'
      · rw [if_pos hs] at h
        obtain ⟨⟨b, hb⟩, h11, hall⟩ := takeId11_sound h
        exact ⟨⟨b, Or.inr (by rw [hs, hb])⟩, h11, hall⟩
      · rw [if_neg hs] at h
        cases h

theorem matchIdAt_vEq (l b : List Char) (h11 : l.length = 11) (hall : l.all isIdChar = true) :
    matchIdAt ('v' :: '=' :: (l ++ b)) = some l := by
  simp [matchIdAt.eq_def, takeId11_on_id_front b h11 hall]

theorem matchIdAt_slash (l b : List Char) (h11 : l.length = 11) (hall : l.all isIdChar = true) :
    matchIdAt ('/' :: (l ++ b)) = some l := by
  simp [matchIdAt.eq_def, takeId11_on_id_front b h11 hall]

theorem searchId_sound : ∀ (cs l : List Char), searchId cs = some l →
    ∃ i, matchIdAt (cs.drop i) = some l ∧ ∀ j < i, matchIdAt (cs.drop j) = none := by
  intro cs
  induction cs with
  | nil => intro l h; cases h
  | cons c rest ih =>
    intro l h
    rw [searchId] at h
    rcases hm : matchIdAt (c :: rest) with _ | l'
    · rw [hm] at h
      obtain ⟨i, hi, hj⟩ := ih l h
      refine ⟨i + 1, by simpa using hi, ?_⟩
      intro j hji
      match j with
      | 0 => exact hm
      | j' + 1 => simpa using hj j' (by omega)
    · rw [hm] at h
      obtain rfl : l' = l := by injection h
      exact ⟨0, hm, by omega⟩

theorem searchId_complete : ∀ (cs : List Char), (∃ i l, matchIdAt (cs.drop i) = some l) →
    (searchId cs).isSome = true := by
  intro cs
  induction cs with
  | nil =>
    rintro ⟨i, l, hi⟩
    simp at hi
    cases hi
  | cons c rest ih =>
    rintro ⟨i, l, hi⟩
    rw [searchId]
    rcases hm : matchIdAt (c :: rest) with _ | l'
    · match i with
      | 0 => rw [List.drop_zero] at hi; rw [hi] at hm; cases hm
      | i' + 1 =>
        show (searchId rest).isSome = true
        exact ih ⟨i', l, by simpa using hi⟩
    · rfl

/-! ### Titles produced under total language-model failure (claim C6 machinery) -/

/-- Every title produced by a run whose language-model collaborator always
fails is either a value already stored in the starting cache or the literal
fallback title. -/
theorem genLoop_titles (v : String) (w : Nat) :
    ∀ (entries : List CaptionEntry) (buffer : List String) (bstart : Option Rat) (wc : Nat)
      (cache cache0 : Cache),
    (∀ t ∈ cache.map Prod.snd, t ∈ cache0.map Prod.snd ∨ t = "Chapter Title Error") →
    (∀ p ∈ (genLoop (fun _ => none) v w entries buffer bstart wc cache).1,
      p.2 ∈ cache0.map Prod.snd ∨ p.2 = "Chapter Title Error") ∧
    (∀ t ∈ ((genLoop (fun _ => none) v w entries buffer bstart wc cache).2.2.1).map Prod.snd,
      t ∈ cache0.map Prod.snd ∨ t = "Chapter Title Error") := by
  intro entries
  induction entries with
  | nil =>
    intro buffer bstart wc cache cache0 hcache
    by_cases h : buffer.isEmpty
    · constructor
      · intro p hp
        simp [genLoop, h] at hp
      · intro t ht
        simp only [genLoop, h, if_true] at ht
        exact hcache t ht
    · rcases hcg : cacheGet cache (chunk_id_of v (bstart.getD 0)) with _ | t0
      · simp only [genLoop, h, if_false, summarize_chunk_miss _ _ _ cache hcg]
        constructor
        · intro p hp
          simp at hp
          simp [hp]
        · intro t ht
          rcases mem_values_cacheSet _ _ _ _ ht with h' | h'
          · exact Or.inr h'
          · exact hcache t h'
      · simp only [genLoop, h, if_false, summarize_chunk_hit _ _ _ cache t0 hcg]
        constructor
        · intro p hp
          simp at hp
          rw [hp]
          exact hcache t0 (mem_values_of_cacheGet cache _ t0 hcg)
        · intro t ht
          exact hcache t ht
  | cons e rest ih =>
    intro buffer bstart wc cache cache0 hcache
    by_cases hclose : w ≤ wc + wordCount e.text
    · rcases hcg : cacheGet cache (chunk_id_of v (bstart.getD e.start)) with _ | t0
      · have hcache' : ∀ t ∈ (cacheSet cache (chunk_id_of v (bstart.getD e.start))
            "Chapter Title Error").map Prod.snd,
            t ∈ cache0.map Prod.snd ∨ t = "Chapter Title Error" := by
          intro t ht
          rcases mem_values_cacheSet _ _ _ _ ht with h' | h'
          · exact Or.inr h'
          · exact hcache t h'
        obtain ⟨ihC, ihK⟩ := ih [] none 0 _ cache0 hcache'
        simp only [genLoop, hclose, if_true, summarize_chunk_miss _ _ _ cache hcg]
        constructor
        · intro p hp
          simp only [List.mem_cons] at hp
          rcases hp with hp | hp
          · rw [hp]
            exact Or.inr rfl
          · exact ihC p hp
        · exact ihK
      · obtain ⟨ihC, ihK⟩ := ih [] none 0 cache cache0 hcache
        simp only [genLoop, hclose, if_true, summarize_chunk_hit _ _ _ cache t0 hcg]
        constructor
        · intro p hp
          simp only [List.mem_cons] at hp
          rcases hp with hp | hp
          · rw [hp]
            exact hcache t0 (mem_values_of_cacheGet cache _ t0 hcg)
          · exact ihC p hp
        · exact ihK
    · simpa [genLoop, hclose] using
        ih (buffer ++ [e.text]) (some (bstart.getD e.start)) (wc + wordCount e.text) cache
          cache0 hcache

/-! ## Claim theorems -/

theorem chunk_id_of_inj_start {v : String} {s1 s2 : Rat}
    (h : chunk_id_of v s1 = chunk_id_of v s2) : pyInt s1 = pyInt s2 := by
  have hd := congrArg String.data h
  rw [chunk_id_data, chunk_id_data] at hd
  have hc := List.append_cancel_left hd
  have hx : (toString (pyInt s1)).data = (toString (pyInt s2)).data := by
    injection hc
  exact toString_int_inj (String.ext hx)

/-- C1: memoization contract of `summarize_chunk`.  On a cache hit the stored
title is returned unchanged, the cache is not rewritten and no language-model
call happens; on a miss exactly one call happens and the resulting title is
inserted.  Over a whole generation run each distinct chunk id triggers at most
one call, ids already cached trigger none, and a second run over the cache
produced by a first run never calls the model for an id the first run
computed. -/
theorem claim1_memoization :
    (∀ (llm : String → Option String) (chunk_id text : String) (cache : Cache) (t : String),
      cacheGet cache chunk_id = some t →
        summarize_chunk llm chunk_id text cache = (t, cache, false)) ∧
    (∀ (llm : String → Option String) (chunk_id text : String) (cache : Cache),
      cacheGet cache chunk_id = none →
        ∃ title, summarize_chunk llm chunk_id text cache =
            (title, cacheSet cache chunk_id title, true) ∧
          cacheGet (cacheSet cache chunk_id title) chunk_id = some title) ∧
    (∀ (llm : String → Option String) (v : String) (w : Nat) (ts : List CaptionEntry)
       (cache : Cache),
      (∀ cid, ((genLoop llm v w ts [] none 0 cache).2.2.2).count cid ≤ 1) ∧
      (∀ cid, (cacheGet cache cid).isSome = true →
        cid ∉ (genLoop llm v w ts [] none 0 cache).2.2.2) ∧
      (∀ (ts2 : List CaptionEntry) (cid : String),
        cid ∈ (genLoop llm v w ts [] none 0 cache).2.2.2 →
        cid ∉ (genLoop llm v w ts2 [] none 0
          (genLoop llm v w ts [] none 0 cache).2.2.1).2.2.2)) := by
  refine ⟨?_, ?_, ?_⟩
  · intro llm chunk_id text cache t h
    exact summarize_chunk_hit llm chunk_id text cache t h
  · intro llm chunk_id text cache h
    exact ⟨_, summarize_chunk_miss llm chunk_id text cache h, cacheGet_set_self _ _ _⟩
  · intro llm v w ts cache
    obtain ⟨hN, hF, hM, hS⟩ := genLoop_inv llm v w ts [] none 0 cache
    refine ⟨List.nodup_iff_count_le_one.mp hN, ?_, ?_⟩
    · intro cid hsome hmem
      rw [hF cid hmem] at hsome
      cases hsome
    · intro ts2 cid hmem hmem2
      obtain ⟨_, hF2, _, _⟩ := genLoop_inv llm v w ts2 [] none 0
        (genLoop llm v w ts [] none 0 cache).2.2.1
      have h1 := hS cid hmem
      have h2 := hF2 cid hmem2
      rw [h2] at h1
      cases h1

/-- Witness for C1 at a concrete cache hit: the pre-stored title is returned
with the cache unchanged and no language-model call. -/
theorem claim1_memoization_witness :
    summarize_chunk (fun _ => some " Fresh Title ") "abc12345678_0" "chunk text"
        [("abc12345678_0", "Stored Title")] =
      ("Stored Title", [("abc12345678_0", "Stored Title")], false) :=
  claim1_memoization.1 (fun _ => some " Fresh Title ") "abc12345678_0" "chunk text"
    [("abc12345678_0", "Stored Title")] "Stored Title" (by decide)

/-- C7: `load_cache` degrades both a missing cache file and an unparseable one
to the empty mapping, never an error. -/
theorem claim7_load_cache_degradation :
    (∀ parseJson : String → Option Cache, load_cache parseJson none = []) ∧
    (∀ (parseJson : String → Option Cache) (s : String),
      parseJson s = none → load_cache parseJson (some s) = []) := by
  constructor
  · intro parseJson
    rfl
  · intro parseJson s h
    simp [load_cache, h]

/-- Witness for C7: a concrete unparseable file content yields the empty
cache. -/
theorem claim7_load_cache_degradation_witness :
    load_cache (fun _ => none) (some "not json at all") = [] :=
  claim7_load_cache_degradation.2 (fun _ => none) "not json at all" rfl

/-- C8: an empty transcript yields an empty chunk sequence, and the pipeline
returns an ok result carrying an empty chapter list with the cache untouched,
not an error. -/
theorem claim8_empty_transcript :
    (∀ (v : String) (w : Nat), segment v w [] = []) ∧
    (∀ (llm : String → Option String) (v : String) (w : Nat) (cache : Cache),
      genLoop llm v w [] [] none 0 cache = ([], [], cache, [])) ∧
    (∀ (llm : String → Option String) (w : Nat) (cache : Cache) (url video_id : String),
      extract_video_id url = some video_id →
        generate_ai_chapters llm (fun _ => FetchResult.ok []) url w cache =
          (Except.ok [], cache)) := by
  refine ⟨fun v w => rfl, fun llm v w cache => rfl, ?_⟩
  intro llm w cache url video_id h
  simp [generate_ai_chapters, h, genLoop]

/-- Witness for C8: a concrete url with a valid id and an empty transcript
produces the ok-with-no-chapters result. -/
theorem claim8_empty_transcript_witness :
    generate_ai_chapters (fun _ => some "Title") (fun _ => FetchResult.ok [])
        "v=abcdefghijk" 1500 [] = (Except.ok [], []) :=
  claim8_empty_transcript.2.2 (fun _ => some "Title") 1500 [] "v=abcdefghijk" "abcdefghijk"
    (by decide)

/-- C10: the preferred-language fallback path returns a transcript choice for
every non-empty availability listing, but the unguarded `available_codes[0]`
indexing is reached and fails (modelled as `none`) exactly when the listing
succeeded with an empty set. -/
theorem claim10_fallback_indexing :
    (∀ available_codes : List String, available_codes ≠ [] →
      (choose_language available_codes).isSome = true) ∧
    choose_language [] = none := by
  constructor
  · intro available_codes h
    rw [choose_language]
    rcases hf : preferred_languages.find? (fun c => available_codes.contains c) with _ | c
    · match available_codes with
      | [] => exact absurd rfl h
      | c0 :: rest => rfl
    · rfl
  · rfl

/-- Witness for C10: a concrete availability listing with one unexpected code
still yields a choice via the fallback. -/
theorem claim10_fallback_indexing_witness : (choose_language ["fr"]).isSome = true :=
  claim10_fallback_indexing.1 ["fr"] (by decide)

/-- C5: `format_timestamp` maps 0, 59, 60, 3599, 3600 and 3661 to the expected
strings, and in general every nonnegative seconds value is rendered as the
spec-level `H:MM:SS` (hours positive) or `M:SS` form with two-digit minutes
and seconds, applied to the truncated value. -/
theorem claim5_format_timestamp :
    format_timestamp 0 = "0:00" ∧ format_timestamp 59 = "0:59" ∧
    format_timestamp 60 = "1:00" ∧ format_timestamp 3599 = "59:59" ∧
    format_timestamp 3600 = "1:00:00" ∧ format_timestamp 3661 = "1:01:01" ∧
    ∀ q : Rat, 0 ≤ q → format_timestamp q = spec_format (Rat.floor q).toNat := by
  refine ⟨by decide, by decide, by decide, by decide, by decide, by decide, ?_⟩
  intro q hq
  rw [format_timestamp, pyInt_nonneg q hq]
  exact formatTimestampInt_cast (Rat.floor q).toNat

/-- Witness for C5 on a concrete fractional input. -/
theorem claim5_format_timestamp_witness :
    format_timestamp (mkRat 7 2) = spec_format (Rat.floor (mkRat 7 2)).toNat :=
  claim5_format_timestamp.2.2.2.2.2.2 (mkRat 7 2) (by decide)

/-- C6: a failing language-model call is absorbed: the summarizer substitutes
the literal fallback title and still caches it, and a pipeline run whose model
always fails still returns an ok result with one chapter per chunk, every
title being either a pre-cached one or the fallback. -/
theorem claim6_failure_absorption :
    (∀ (llm : String → Option String) (chunk_id text : String) (cache : Cache),
      cacheGet cache chunk_id = none → llm text = none →
        summarize_chunk llm chunk_id text cache =
          ("Chapter Title Error", cacheSet cache chunk_id "Chapter Title Error", true)) ∧
    (∀ (v : String) (w : Nat) (ts : List CaptionEntry) (cache : Cache),
      (genLoop (fun _ => none) v w ts [] none 0 cache).1.length = (segment v w ts).length ∧
      (∀ p ∈ (genLoop (fun _ => none) v w ts [] none 0 cache).1,
        p.2 ∈ cache.map Prod.snd ∨ p.2 = "Chapter Title Error")) ∧
    (∀ (w : Nat) (ts : List CaptionEntry) (cache : Cache) (url video_id : String),
      extract_video_id url = some video_id →
        (generate_ai_chapters (fun _ => none) (fun _ => FetchResult.ok ts) url w cache).1 =
          Except.ok ((genLoop (fun _ => none) video_id w ts [] none 0 cache).1)) := by
  refine ⟨?_, ?_, ?_⟩
  · intro llm chunk_id text cache hcg hllm
    rw [summarize_chunk_miss llm chunk_id text cache hcg, hllm]
  · intro v w ts cache
    constructor
    · exact genLoop_chapters_length (fun _ => none) v w ts [] none 0 cache
    · exact (genLoop_titles v w ts [] none 0 cache cache (fun t ht => Or.inl ht)).1
  · intro w ts cache url video_id h
    simp [generate_ai_chapters, h]

/-- Witness for C6: a concrete failing call yields the fallback title, cached,
and a one-entry transcript still produces an ok chapter list. -/
theorem claim6_failure_absorption_witness :
    summarize_chunk (fun _ => none) "abc12345678_0" "some text" [] =
      ("Chapter Title Error", [("abc12345678_0", "Chapter Title Error")], true) :=
  claim6_failure_absorption.1 (fun _ => none) "abc12345678_0" "some text" [] rfl rfl

/-- C2 (amended): chunk ids derived by the segmenter are pairwise distinct
whenever the truncated start times of the caption entries are strictly
increasing along the sequence.  As stated in the claim (for every ordered
caption sequence) the invariant fails, because distinct fractional start times
can truncate to the same whole second; see the counterexample. -/
theorem claim2_unique_ids (v : String) (w : Nat) (entries : List CaptionEntry)
    (h : List.Pairwise (fun a b => pyInt a.start < pyInt b.start) entries) :
    ((segment v w entries).map Chunk.id).Nodup := by
  have hsub := segmentLoop_starts_sublist v w entries [] none 0 (fun _ => rfl)
  simp only [optStart, List.nil_append] at hsub
  have hp2 : List.Pairwise (fun a b : Rat => pyInt a < pyInt b)
      (entries.map (fun e => e.start)) :=
    List.pairwise_map.mpr h
  have hpair : List.Pairwise (fun a b : Rat => pyInt a < pyInt b)
      ((segmentLoop v w entries [] none 0).map Chunk.startTime) :=
    List.Pairwise.sublist hsub hp2
  have hchunks : List.Pairwise (fun c d : Chunk => pyInt c.startTime < pyInt d.startTime)
      (segmentLoop v w entries [] none 0) :=
    List.Pairwise.of_map Chunk.startTime (fun a b hab => hab) hpair
  have hne : List.Pairwise (fun c d : Chunk => c.id ≠ d.id)
      (segmentLoop v w entries [] none 0) := by
    refine hchunks.imp_of_mem ?_
    intro c d hc hd hlt hEq
    have hcid := segmentLoop_id_form v w entries [] none 0 c hc
    have hdid := segmentLoop_id_form v w entries [] none 0 d hd
    rw [hcid, hdid] at hEq
    have := chunk_id_of_inj_start hEq
    omega
  exact List.pairwise_map.mpr hne

/-- Counterexample for C2 as stated: two entries with strictly increasing
start times at distinct boundaries whose whole-second truncations coincide
produce two chunks with the same id. -/
theorem claim2_unique_ids_counterexample :
    mkRat 1 5 < mkRat 1 2 ∧
    (segment "abc12345678" 1
        [⟨"hello", mkRat 1 5, 1⟩, ⟨"world", mkRat 1 2, 1⟩]).map Chunk.id =
      ["abc12345678_0", "abc12345678_0"] ∧
    ¬ ((segment "abc12345678" 1
        [⟨"hello", mkRat 1 5, 1⟩, ⟨"world", mkRat 1 2, 1⟩]).map Chunk.id).Nodup :=
  ⟨by decide, by decide, by decide⟩

/-- Witness for C2 (amended) on integer-second starts. -/
theorem claim2_unique_ids_witness :
    ((segment "abc12345678" 1
        [⟨"hello", 0, 1⟩, ⟨"world", 5, 1⟩]).map Chunk.id).Nodup :=
  claim2_unique_ids "abc12345678" 1 [⟨"hello", 0, 1⟩, ⟨"world", 5, 1⟩] (by decide)

/-- C3 (amended): a caption sequence whose total word count equals the
threshold is segmented into exactly one chunk holding the text of all entries,
provided the final entry itself carries at least one word (a trailing
zero-word entry reopens the buffer and yields a second chunk; see the
counterexample); the chunk closes as soon as the running count reaches the
threshold, and after the last entry a non-empty buffer is emitted as a final
chunk with start time 0 when none was recorded. -/
theorem claim3_boundary :
    (∀ (v : String) (w : Nat) (e : CaptionEntry) (rest : List CaptionEntry),
      1 ≤ wordCount (((e :: rest).getLast (List.cons_ne_nil e rest)).text) →
      totalWords (e :: rest) = w →
      segment v w (e :: rest) =
        [⟨chunk_id_of v e.start, e.start,
          (String.intercalate " " ((e :: rest).map (fun x => x.text))).trim⟩]) ∧
    (∀ (v : String) (w : Nat) (buffer : List String) (bstart : Option Rat) (wc : Nat),
      buffer ≠ [] →
      segmentLoop v w [] buffer bstart wc =
        [⟨chunk_id_of v (bstart.getD 0), bstart.getD 0,
          (String.intercalate " " buffer).trim⟩]) := by
  constructor
  · intro v w e rest hlast htotal
    have := segmentLoop_exact v w rest e [] none 0 hlast (by simpa using htotal)
    simpa [segment] using this
  · intro v w buffer bstart wc h
    cases buffer with
    | nil => exact absurd rfl h
    | cons b bs => simp [segmentLoop]

/-- Counterexample for C3 as stated: a two-entry sequence with total word
count exactly the threshold, where the closing entry is followed by a
zero-word entry, produces two chunks rather than one. -/
theorem claim3_boundary_counterexample :
    totalWords [⟨"a b", 0, 1⟩, ⟨"", 5, 1⟩] = 2 ∧
    (segment "abc12345678" 2 [⟨"a b", 0, 1⟩, ⟨"", 5, 1⟩]).length = 2 :=
  ⟨by decide, by decide⟩

/-- Witness for C3 (amended) on a concrete two-entry sequence totalling the
threshold. -/
theorem claim3_boundary_witness :
    segment "abc12345678" 2 [⟨"a", 0, 1⟩, ⟨"b", 5, 1⟩] =
      [⟨chunk_id_of "abc12345678" 0, 0,
        (String.intercalate " " ["a", "b"]).trim⟩] :=
  claim3_boundary.1 "abc12345678" 2 ⟨"a", 0, 1⟩ [⟨"b", 5, 1⟩] (by decide) (by decide)

/-- C4 (amended): for video ids over the 11-character id alphabet that contain
no underscore, and nonnegative start times, parsing a cache entry on the View
Cached Videos page (splitting the chunk id on `_` with a strict two-part
unpacking) reconstructs exactly the video id and the formatted timestamp the
generation step used.  For ids containing `_` the strict unpacking of
`chunk_id.split("_")` raises instead; see the counterexample. -/
theorem claim4_round_trip (v : String) (s : Rat)
    (_hlen : v.data.length = 11) (_halpha : v.data.all isIdChar = true)
    (hunder : '_' ∉ v.data) (hs : 0 ≤ s) :
    view_entry (chunk_id_of v s) = some (v, format_timestamp s) :=
  view_entry_round_trip v s hunder hs

/-- Counterexample for C4 as stated: a well-formed 11-character video id
containing an underscore produces a chunk id whose split has three parts, so
the view-page parsing fails (models the `ValueError` crash) instead of
reconstructing the entry. -/
theorem claim4_round_trip_counterexample :
    "a_234567890".data.length = 11 ∧ "a_234567890".data.all isIdChar = true ∧
    view_entry (chunk_id_of "a_234567890" 0) = none :=
  ⟨by decide, by decide, by decide⟩

/-- Witness for C4 (amended) at a concrete fractional start time. -/
theorem claim4_round_trip_witness :
    view_entry (chunk_id_of "abc12345678" (mkRat 7 2)) =
      some ("abc12345678", format_timestamp (mkRat 7 2)) :=
  claim4_round_trip "abc12345678" (mkRat 7 2) (by decide) (by decide) (by decide) (by decide)

/-- C9 (amended): whenever the extractor returns an id, that id is eleven
id-class characters occurring immediately after `v=` or `/` in the url, and it
is the leftmost such match; the extractor returns an id exactly when such an
occurrence exists, and on failure the pipeline fails fast with the
invalid-URL error.  As originally stated ("returns that exact id" for every
occurring id) the claim fails when several candidate ids occur; see the
counterexample. -/
theorem claim9_extract_video_id (url : String) :
    (∀ s, extract_video_id url = some s → Occurs url s) ∧
    ((extract_video_id url).isSome = true ↔ HasId url) ∧
    (∀ s, extract_video_id url = some s →
      ∃ i, matchIdAt (url.data.drop i) = some s.data ∧
        ∀ j < i, matchIdAt (url.data.drop j) = none) ∧
    (extract_video_id url = none →
      ∀ (llm : String → Option String) (fetch : String → FetchResult) (w : Nat) (cache : Cache),
        generate_ai_chapters llm fetch url w cache =
          (Except.error "Invalid YouTube URL.", cache)) := by
  have hsound : ∀ s, extract_video_id url = some s → Occurs url s := by
    intro s h
    rw [extract_video_id] at h
    rcases hsearch : searchId url.data with _ | l
    · rw [hsearch] at h
      cases h
    · rw [hsearch] at h
      obtain rfl : String.mk l = s := by injection h
      obtain ⟨i, hi, _⟩ := searchId_sound url.data l hsearch
      obtain ⟨⟨b, hb⟩, h11, hall⟩ := matchIdAt_sound hi
      refine ⟨h11, hall, url.data.take i, b, ?_⟩
      rcases hb with hb | hb
      · refine Or.inl ?_
        conv_lhs => rw [← List.take_append_drop i url.data]
        rw [hb]
      · refine Or.inr ?_
        conv_lhs => rw [← List.take_append_drop i url.data]
        rw [hb]
  refine ⟨hsound, ⟨?_, ?_⟩, ?_, ?_⟩
  · intro h
    rcases hsearch : searchId url.data with _ | l
    · rw [extract_video_id, hsearch] at h
      cases h
    · exact ⟨String.mk l, hsound (String.mk l) (by rw [extract_video_id, hsearch]; rfl)⟩
  · rintro ⟨cand, h11, hall, a, b, hsplit⟩
    have hmatch : ∃ i l, matchIdAt (url.data.drop i) = some l := by
      rcases hsplit with hsplit | hsplit
      · refine ⟨a.length, cand.data, ?_⟩
        rw [hsplit, List.drop_left]
        exact matchIdAt_vEq cand.data b h11 hall
      · refine ⟨a.length, cand.data, ?_⟩
        rw [hsplit, List.drop_left]
        exact matchIdAt_slash cand.data b h11 hall
    have := searchId_complete url.data hmatch
    rw [extract_video_id]
    rcases hsearch : searchId url.data with _ | l
    · rw [hsearch] at this
      cases this
    · rfl
  · intro s h
    rw [extract_video_id] at h
    rcases hsearch : searchId url.data with _ | l
    · rw [hsearch] at h
      cases h
    · rw [hsearch] at h
      obtain rfl : String.mk l = s := by injection h
      exact searchId_sound url.data l hsearch
  · intro h llm fetch w cache
    simp [generate_ai_chapters, h]

/-- Counterexample for C9 as stated: a url containing the candidate id
`bbbbbbbbbbb` immediately after `v=` on which the extractor nevertheless
returns the different, earlier id `aaaaaaaaaaa` found after `/`. -/
theorem claim9_extract_video_id_counterexample :
    extract_video_id "/aaaaaaaaaaav=bbbbbbbbbbb" = some "aaaaaaaaaaa" ∧
    Occurs "/aaaaaaaaaaav=bbbbbbbbbbb" "bbbbbbbbbbb" ∧
    "aaaaaaaaaaa" ≠ "bbbbbbbbbbb" := by
  refine ⟨by decide, ⟨by decide, by decide, "/aaaaaaaaaaa".data, [], Or.inl (by decide)⟩, by decide⟩

/-- Witness for C9 (amended): on a standard watch url the returned id occurs
after `v=`, and a concrete id-free string makes the pipeline fail fast. -/
theorem claim9_extract_video_id_witness :
    Occurs "https://www.youtube.com/watch?v=dQw4w9WgXcQ" "dQw4w9WgXcQ" ∧
    generate_ai_chapters (fun _ => none) (fun _ => FetchResult.ok []) "no id here" 5 [] =
      (Except.error "Invalid YouTube URL.", []) :=
  ⟨(claim9_extract_video_id "https://www.youtube.com/watch?v=dQw4w9WgXcQ").1 "dQw4w9WgXcQ"
      (by decide),
   (claim9_extract_video_id "no id here").2.2.2 (by decide) (fun _ => none)
      (fun _ => FetchResult.ok []) 5 []⟩

end App
